import Mathlib

/-!
Shallow embedding of `interpreter.py` (class `SimpleAssembler`), a two-pass
pseudo-assembler and interpreter, together with theorems checking the
natural-language specification against this embedding.

Strings are modelled as lists of characters; the Python `while` loop of
`execute` is modelled by a fuel-indexed iteration of its body, so that
non-termination of the source loop appears as the result being `none` for
every amount of fuel.
-/

namespace Interp

abbrev Str := List Char

/-- `str.upper()` (ASCII model, matching the source's upper-case tokens). -/
def toUpperStr (s : Str) : Str := s.map Char.toUpper

/-- `str.strip()`: remove leading and trailing whitespace. -/
def strip (s : Str) : Str :=
  ((s.dropWhile Char.isWhitespace).reverse.dropWhile Char.isWhitespace).reverse

/-- `remove_comments`: everything before the first `#`, then stripped. -/
def remove_comments (line : Str) : Str :=
  strip (line.takeWhile (fun c => c != '#'))

/-- Helper for `splitWs`: accumulate the current token (reversed) while
splitting on whitespace. -/
def splitWsAux : Str → Str → List Str
  | [], acc => if acc.isEmpty then [] else [acc.reverse]
  | c :: cs, acc =>
    if c.isWhitespace then
      if acc.isEmpty then splitWsAux cs [] else acc.reverse :: splitWsAux cs []
    else splitWsAux cs (c :: acc)

/-- `str.split()`: split on runs of whitespace, dropping empty pieces. -/
def splitWs (s : Str) : List Str := splitWsAux s []

/-- A classified operand, the result of `parse_operand`:
register index, immediate value, or label name. -/
inductive Operand where
  | reg : Nat → Operand
  | imm : Nat → Operand
  | label : Str → Operand
deriving DecidableEq, Repr

def Operand.isReg : Operand → Bool
  | .reg _ => true
  | _ => false

def Operand.isLabel : Operand → Bool
  | .label _ => true
  | _ => false

/-- Numeric value of a single decimal digit character. -/
def charDigitVal (c : Char) : Nat := c.toNat - 48

/-- `int(token)` for an all-digit token: decimal value. -/
def digitsVal (t : Str) : Nat := t.foldl (fun a c => a * 10 + charDigitVal c) 0

/-- `token.isdigit()`: non-empty and all decimal digits. -/
def isDigitStr (t : Str) : Bool := !t.isEmpty && t.all Char.isDigit

/-- The register test of `parse_operand`: `token.startswith('R') and
len(token) == 2` and `token[1].isdigit()` and `0 <= int(token[1]) <= 7`. -/
def isRegTok (t : Str) : Bool :=
  match t with
  | [c0, c1] => c0 = 'R' && c1.isDigit && decide (charDigitVal c1 ≤ 7)
  | _ => false

/-- `token and token[0].isalpha()`. -/
def headIsAlpha (t : Str) : Bool :=
  match t with
  | [] => false
  | c :: _ => c.isAlpha

/-- `parse_operand`: upper-case the token, then classify it as a register
(`R0`..`R7`), an in-range decimal immediate, or a label (first character
alphabetic); raise on an out-of-range number or any other shape. -/
def parse_operand (token0 : Str) : Except String Operand :=
  let token := toUpperStr token0
  if isRegTok token then
    Except.ok (Operand.reg (charDigitVal (token.getD 1 ' ')))
  else if isDigitStr token then
    if digitsVal token ≤ 65535 then Except.ok (Operand.imm (digitsVal token))
    else Except.error "number exceeds 16-bit range 0-65535"
  else if headIsAlpha token then Except.ok (Operand.label token)
  else Except.error "invalid operand"

/-- The instruction table `valid_instructions`. -/
def valid_instructions : List Str :=
  ["HLT".toList, "NOP".toList, "JMP".toList, "MOV".toList]

def hltS : Str := "HLT".toList
def nopS : Str := "NOP".toList
def jmpS : Str := "JMP".toList
def movS : Str := "MOV".toList

/-- `parts[0].endswith(':')`. -/
def endsWithColon (t : Str) : Bool := t.getLast? = some ':'

/-- Association-list model of the Python dict `self.labels`
(first binding wins, duplicates are never inserted). -/
def lookupLabel : List (Str × Nat) → Str → Option Nat
  | [], _ => none
  | (k, v) :: t, name => if k = name then some v else lookupLabel t name

/-- The mutable state of `first_pass`: the address counter, the error
counter, and the label table built so far. -/
structure FPState where
  address : Nat
  errors : Nat
  labels : List (Str × Nat)
deriving DecidableEq, Repr

/-- Errors recorded for the operand of a `JMP` line: the operand must
classify as a label; a parse failure or a non-label classification is one
error. -/
def jmpErrors (op : Str) : Nat :=
  match parse_operand op with
  | .error _ => 1
  | .ok o => if o.isLabel then 0 else 1

/-- Errors recorded for the operands of a `MOV` line: if the first operand
fails to parse the exception ends the check (one error, second operand is
never examined); otherwise a non-register destination is one error and a
parse failure of the second operand is one more. -/
def movErrors (op1 op2 : Str) : Nat :=
  match parse_operand op1 with
  | .error _ => 1
  | .ok d =>
    (if d.isReg then 0 else 1) +
    (match parse_operand op2 with
     | .error _ => 1
     | .ok _ => 0)

/-- One loop iteration of `first_pass` over a raw line. -/
def fpLine (st : FPState) (raw : Str) : FPState :=
  let line := remove_comments raw
  match splitWs line with
  | [] => st
  | p0 :: rest =>
    if endsWithColon p0 then
      let label := p0.dropLast
      if (lookupLabel st.labels label).isSome then
        { st with errors := st.errors + 1 }
      else
        { st with labels := st.labels ++ [(label, st.address)] }
    else
      let e1 : Nat := if p0 ∈ valid_instructions then 0 else 1
      let e2 : Nat :=
        if p0 = jmpS then
          match rest with
          | [op] => jmpErrors op
          | _ => 1
        else if p0 = movS then
          match rest with
          | [op1, op2] => movErrors op1 op2
          | _ => 1
        else 0
      { st with errors := st.errors + e1 + e2, address := st.address + 1 }

/-- `first_pass` as a fold, returning the final state. -/
def fpRun (lines : List Str) : FPState :=
  lines.foldl fpLine ⟨0, 0, []⟩

/-- `first_pass`'s boolean result: `error_count == 0`. -/
def first_pass (lines : List Str) : Bool :=
  (fpRun lines).errors == 0

/-- An instruction record `(address, mnemonic, operand tokens)` appended by
`second_pass`. -/
structure Instr where
  addr : Nat
  mn : Str
  ops : List Str
deriving DecidableEq, Repr

/-- One loop iteration of `second_pass` over a raw line. -/
def spLine : Nat × List Instr → Str → Nat × List Instr
  | (address, out), raw =>
    let line := remove_comments raw
    match splitWs line with
    | [] => (address, out)
    | p0 :: rest =>
      if endsWithColon p0 then (address, out)
      else (address + 1, out ++ [⟨address, p0, rest⟩])

/-- `second_pass`: the materialized instruction sequence. -/
def second_pass (lines : List Str) : List Instr :=
  (lines.foldl spLine (0, [])).2

/-- The machine state manipulated by the `execute` loop: program counter,
register file, data memory, the `running` flag, the `executed_count` step
counter, and a flag recording that the `while` loop was left by `break`. -/
structure ExecSt where
  pc : Nat
  regs : List Nat
  mem : List Nat
  running : Bool
  count : Nat
  broke : Bool
deriving DecidableEq, Repr

/-- Initial machine state at the top of `execute`: `pc = 0`, eight zero
registers, 256 zero memory cells, `running = True`, zero steps. -/
def execInit : ExecSt :=
  ⟨0, List.replicate 8 0, List.replicate 256 0, true, 0, false⟩

/-- The `except ValueError` handler: print, stop running, `break`. -/
def faultStop (s : ExecSt) : ExecSt :=
  { s with running := false, broke := true }

/-- `max_executions` in `execute`. -/
def max_executions : Nat := 1000

/-- The `while` loop's guard is false, or the loop was left by `break`. -/
def loopStops (s : ExecSt) : Bool :=
  s.broke || !s.running || decide (max_executions ≤ s.count)

/-- One iteration of the `while` body of `execute` (called only when the
loop continues): bounds-check the program counter, dispatch on the
mnemonic. `HLT` clears `running` and still falls through to the
`pc += 1; executed_count += 1` epilogue; `JMP` sets the program counter and
`continue`s, skipping that epilogue; any `ValueError` is caught by
`faultStop`. -/
def execBody (prog : List Instr) (labels : List (Str × Nat)) (s : ExecSt) :
    ExecSt :=
  if prog.length ≤ s.pc then { s with broke := true }
  else
    let i := prog.getD s.pc ⟨0, [], []⟩
    if i.mn = hltS then
      { s with running := false, pc := s.pc + 1, count := s.count + 1 }
    else if i.mn = nopS then
      { s with pc := s.pc + 1, count := s.count + 1 }
    else if i.mn = jmpS then
      match i.ops with
      | [op] =>
        match parse_operand op with
        | .ok (.label l) =>
          match lookupLabel labels l with
          | some a => { s with pc := a }
          | none => faultStop s
        | _ => faultStop s
      | _ => faultStop s
    else if i.mn = movS then
      match i.ops with
      | [op1, op2] =>
        match parse_operand op1 with
        | .error _ => faultStop s
        | .ok d =>
          match parse_operand op2 with
          | .error _ => faultStop s
          | .ok src =>
            match d with
            | .reg dv =>
              match src with
              | .reg sv =>
                { s with regs := s.regs.set dv (s.regs.getD sv 0),
                         pc := s.pc + 1, count := s.count + 1 }
              | .imm v =>
                { s with regs := s.regs.set dv v,
                         pc := s.pc + 1, count := s.count + 1 }
              | .label _ => faultStop s
            | _ => faultStop s
      | _ => faultStop s
    else faultStop s

/-- Fuel-indexed iteration of the `while` loop of `execute`. -/
def execLoop (prog : List Instr) (labels : List (Str × Nat)) :
    Nat → ExecSt → ExecSt
  | 0, s => s
  | Nat.succ n, s =>
    if loopStops s then s else execLoop prog labels n (execBody prog labels s)

/-- Final machine state of `execute`'s loop, `none` when `fuel` loop
iterations do not suffice for the loop to stop (in particular, `none` for
every fuel exactly when the source loop runs forever). -/
def execFinal (prog : List Instr) (labels : List (Str × Nat)) (fuel : Nat) :
    Option ExecSt :=
  let s := execLoop prog labels fuel execInit
  if loopStops s then some s else none

/-- `execute`'s boolean result: `False` for an empty program, otherwise
`executed_count < max_executions` after the loop stops. -/
def execute (prog : List Instr) (labels : List (Str × Nat)) (fuel : Nat) :
    Option Bool :=
  if prog.length = 0 then some false
  else
    match execFinal prog labels fuel with
    | some s => some (decide (s.count < max_executions))
    | none => none

/-- `load_program`: every line is upper-cased. -/
def loadLines (lines : List Str) : List Str := lines.map toUpperStr

/-- `run`: load, `first_pass`, `second_pass` (which always succeeds), then
`execute`; a `first_pass` failure aborts with `False`. -/
def runProgram (lines : List Str) (fuel : Nat) : Option Bool :=
  let ls := loadLines lines
  if first_pass ls then
    execute (second_pass ls) (fpRun ls).labels fuel
  else some false

/-- Final machine state after `run`, when the pipeline reaches the
`execute` loop and that loop stops within `fuel` iterations. -/
def runState (lines : List Str) (fuel : Nat) : Option ExecSt :=
  let ls := loadLines lines
  if first_pass ls then
    if (second_pass ls).length = 0 then none
    else execFinal (second_pass ls) (fpRun ls).labels fuel
  else none

/-- A raw line that both passes treat as an instruction line: non-empty
after comment stripping, and its first token is not a label definition. -/
def isInstrLine (raw : Str) : Bool :=
  match splitWs (remove_comments raw) with
  | [] => false
  | p0 :: _ => !endsWithColon p0

/-- `fpLine` instrumented with the trace of addresses the pass-1 counter
assigns to instruction lines. -/
def fpLineTr : FPState × List Nat → Str → FPState × List Nat
  | (st, tr), raw =>
    (fpLine st raw, if isInstrLine raw then tr ++ [st.address] else tr)

/-- Addresses pass 1 assigns to the instruction lines, in order. -/
def fpAddrs (lines : List Str) : List Nat :=
  (lines.foldl fpLineTr (⟨0, 0, []⟩, [])).2

/-- Consecutive addresses handed out from `a`, one per instruction line. -/
def seqFrom : Nat → List Str → List Nat
  | _, [] => []
  | a, l :: ls => if isInstrLine l then a :: seqFrom (a + 1) ls else seqFrom a ls

/-! Helper lemmas. -/

lemma parse_operand_imm_le (t : Str) (v : Nat)
    (h : parse_operand t = Except.ok (Operand.imm v)) : v ≤ 65535 := by
  simp only [parse_operand] at h
  split_ifs at h with h1 h2 h3 h4 <;> simp_all

lemma regs_getD_le (l : List Nat) (h : ∀ r ∈ l, r ≤ 65535) (n : Nat) :
    l.getD n 0 ≤ 65535 := by
  rcases hg : l[n]? with _ | x
  · simp [List.getD, hg]
  · have := h x (List.getElem?_mem hg)
    simp [List.getD, hg, this]

lemma regs_set_le (l : List Nat) (h : ∀ r ∈ l, r ≤ 65535) (n v : Nat)
    (hv : v ≤ 65535) : ∀ r ∈ l.set n v, r ≤ 65535 := by
  intro r hr
  rcases List.mem_or_eq_of_mem_set hr with hm | rfl
  · exact h r hm
  · exact hv

lemma execBody_regs_le (prog : List Instr) (labels : List (Str × Nat))
    (s : ExecSt) (h : ∀ r ∈ s.regs, r ≤ 65535) :
    ∀ r ∈ (execBody prog labels s).regs, r ≤ 65535 := by
  simp only [execBody]
  repeat' split
  all_goals try exact h
  case _ hp =>
    exact regs_set_le s.regs h _ _ (regs_getD_le s.regs h _)
  case _ hp =>
    exact regs_set_le s.regs h _ _ (parse_operand_imm_le _ _ hp)

lemma execLoop_regs_le (prog : List Instr) (labels : List (Str × Nat)) :
    ∀ fuel s, (∀ r ∈ s.regs, r ≤ 65535) →
      ∀ r ∈ (execLoop prog labels fuel s).regs, r ≤ 65535 := by
  intro fuel
  induction fuel with
  | zero => intro s hs; exact hs
  | succ n ih =>
    intro s hs
    rw [execLoop]
    split
    · exact hs
    · exact ih _ (execBody_regs_le prog labels s hs)

lemma toUpper_of_isDigit (c : Char) (h : c.isDigit = true) : c.toUpper = c := by
  simp only [Char.isDigit, Bool.and_eq_true, decide_eq_true_eq] at h
  have hn : c.toNat ≤ 57 := by
    have := UInt32.toNat_le_of_le (n := c.val) (m := 57)
      (by norm_num [UInt32.size]) h.2
    simpa [Char.toNat] using this
  unfold Char.toUpper
  rw [if_neg]
  rintro ⟨h97, _⟩
  omega

lemma toUpperStr_of_digits (t : Str) (h : t.all Char.isDigit = true) :
    toUpperStr t = t := by
  simp only [List.all_eq_true] at h
  simp only [toUpperStr]
  induction t with
  | nil => rfl
  | cons c cs ih =>
    simp only [List.map_cons, List.cons.injEq]
    constructor
    · exact toUpper_of_isDigit c (h c (by simp))
    · exact ih fun x hx => h x (by simp [hx])

lemma isRegTok_eq_false_of_digits (t : Str) (h : t.all Char.isDigit = true) :
    isRegTok t = false := by
  rcases t with _ | ⟨c0, _ | ⟨c1, _ | ⟨c2, t⟩⟩⟩ <;> simp [isRegTok]
  intro hc0
  subst hc0
  simp at h

lemma fpLine_address (st : FPState) (raw : Str) :
    (fpLine st raw).address
      = if isInstrLine raw then st.address + 1 else st.address := by
  rcases hsp : splitWs (remove_comments raw) with _ | ⟨p0, rest⟩
  · simp [fpLine, isInstrLine, hsp]
  · simp only [fpLine, isInstrLine, hsp]
    split_ifs <;> simp_all

lemma fpAddrs_aux (lines : List Str) :
    ∀ (st : FPState) (tr : List Nat),
      (lines.foldl fpLineTr (st, tr)).2 = tr ++ seqFrom st.address lines := by
  induction lines with
  | nil => intro st tr; simp [seqFrom]
  | cons l ls ih =>
    intro st tr
    rcases hi : isInstrLine l with _ | _
    · simp only [List.foldl_cons, fpLineTr, hi, if_false, seqFrom, ih,
        fpLine_address, Bool.false_eq_true]
    · simp only [List.foldl_cons, fpLineTr, hi, if_true, seqFrom, ih,
        fpLine_address, List.append_assoc, List.singleton_append]

lemma spAddrs_aux (lines : List Str) :
    ∀ (a : Nat) (out : List Instr),
      ((lines.foldl spLine (a, out)).2).map Instr.addr
        = out.map Instr.addr ++ seqFrom a lines := by
  induction lines with
  | nil => intro a out; simp [seqFrom]
  | cons l ls ih =>
    intro a out
    simp only [List.foldl_cons]
    rcases hsp : splitWs (remove_comments l) with _ | ⟨p0, rest⟩
    · have hi : isInstrLine l = false := by simp [isInstrLine, hsp]
      simp only [spLine, hsp, ih, seqFrom, hi, if_false, Bool.false_eq_true]
    · rcases hc : endsWithColon p0 with _ | _
      · have hi : isInstrLine l = true := by simp [isInstrLine, hsp, hc]
        simp only [spLine, hsp, hc, if_false, ih, seqFrom, hi, if_true,
          List.map_append, List.append_assoc, Bool.false_eq_true]
        rfl
      · have hi : isInstrLine l = false := by simp [isInstrLine, hsp, hc]
        simp only [spLine, hsp, hc, if_true, ih, seqFrom, hi, if_false,
          Bool.false_eq_true]

lemma seqFrom_getElem? (lines : List Str) :
    ∀ (a n : Nat), n < (seqFrom a lines).length →
      (seqFrom a lines)[n]? = some (a + n) := by
  induction lines with
  | nil => intro a n h; simp [seqFrom] at h
  | cons l ls ih =>
    intro a n h
    rcases hi : isInstrLine l with _ | _
    · simp only [seqFrom, hi, Bool.false_eq_true, if_false] at h ⊢
      exact ih a n h
    · simp only [seqFrom, hi, if_true] at h ⊢
      match n with
      | 0 => simp
      | Nat.succ m =>
        simp only [List.getElem?_cons_succ]
        rw [ih (a + 1) m (by simp at h; omega)]
        have : a + 1 + m = a + (m + 1) := by omega
        rw [this]

/-! Claim theorems. -/

/-- C1: the claim says every runtime fault (jump to a missing label,
program counter out of range, MOV misusing a label source) makes `execute`
return the failure outcome. The code instead leaves the loop by `break`
and then falls through to `return True`: all three fault kinds are
reported as success, as these three single-fault programs show. The final
machine state of the first program confirms the fault did occur (the run
stopped by `break` with `running` cleared after zero executed steps). -/
theorem claim_C1_runtime_fault_reported_as_success :
    runProgram ["JMP X".toList] 5 = some true
    ∧ runProgram ["NOP".toList] 5 = some true
    ∧ runProgram ["MOV R0 X".toList] 5 = some true
    ∧ runState ["JMP X".toList] 5
        = some ⟨0, List.replicate 8 0, List.replicate 256 0, false, 0, true⟩ := by
  refine ⟨by rfl, by rfl, by rfl, by rfl⟩

/-- C2: the claim says a jump cycle with no `HLT` always stops in the
step-limit outcome after exactly 1000 steps. In the code the `JMP` branch
ends in `continue`, which skips the `executed_count` increment, so a pure
jump cycle never reaches the ceiling and the `while` loop never stops: for
every fuel the loop is still running (`runProgram` is `none`). The
claim's own one-line example `A: JMP A` does not even reach the cycle:
pass 1 and pass 2 ignore everything after a label, the instruction list is
empty, and `execute` fails with the no-program error instead. -/
theorem claim_C2_pure_jump_cycle_never_stops :
    ∀ fuel, runProgram ["A:".toList, "JMP A".toList] fuel = none
      ∧ runProgram ["A: JMP A".toList] fuel = some false := by
  intro fuel
  have hbody : execBody [⟨0, jmpS, ["A".toList]⟩] [("A".toList, 0)] execInit
      = execInit := by
    set_option maxRecDepth 4000 in decide
  have key : ∀ n,
      execLoop [⟨0, jmpS, ["A".toList]⟩] [("A".toList, 0)] n execInit
        = execInit := by
    intro n
    induction n with
    | zero => rfl
    | succ n ih =>
      rw [execLoop, if_neg (by decide), hbody, ih]
  have hfin : execFinal [⟨0, jmpS, ["A".toList]⟩] [("A".toList, 0)] fuel
      = none := by
    simp only [execFinal, key fuel]
    decide
  constructor
  · show execute [⟨0, jmpS, ["A".toList]⟩] [("A".toList, 0)] fuel = none
    simp only [execute, hfin]
    decide
  · rfl

/-- C3 counterexample: the claim says that in this register-capable
variant pass 1 validates tokens following a label on the same line and
advances the address counter for them. On the line `M: QQQ` pass 1
records no error for the unknown mnemonic `QQQ` and leaves the address
counter at 0, binding only the label. -/
theorem claim_C3_counterexample :
    (fpRun ["M: QQQ".toList]).errors = 0
    ∧ (fpRun ["M: QQQ".toList]).address = 0
    ∧ (fpRun ["M: QQQ".toList]).labels = [("M".toList, 0)] := by
  refine ⟨by rfl, by rfl, by rfl⟩

/-- C3 amended: pass 1 ignores every token after a label definition
(nothing is validated, the address counter does not advance) and pass 2
drops the whole line; both passes treat `LABEL: anything` exactly like the
label alone, so the processing of such a line depends only on its first
token. -/
theorem claim_C3_label_trailing_tokens_ignored (st : FPState)
    (acc : Nat × List Instr) (raw raw' p0 : Str) (rest rest' : List Str)
    (h : splitWs (remove_comments raw) = p0 :: rest)
    (h' : splitWs (remove_comments raw') = p0 :: rest')
    (hc : endsWithColon p0 = true) :
    fpLine st raw = fpLine st raw' ∧ spLine acc raw = spLine acc raw' := by
  obtain ⟨a, out⟩ := acc
  constructor
  · simp only [fpLine, h, h', hc, if_true]
  · simp only [spLine, h, h', hc, if_true]

/-- C3 witness: `M: NOP` is processed exactly like `M:` by both passes. -/
theorem claim_C3_witness :
    fpLine ⟨0, 0, []⟩ ("M: NOP".toList) = fpLine ⟨0, 0, []⟩ ("M:".toList)
    ∧ spLine (0, []) ("M: NOP".toList) = spLine (0, []) ("M:".toList) :=
  claim_C3_label_trailing_tokens_ignored ⟨0, 0, []⟩ (0, []) ("M: NOP".toList)
    ("M:".toList) ("M:".toList) ["NOP".toList] [] (by rfl) (by rfl) (by rfl)

/-- C4 counterexample: the claim says the program `HLT` ends with the
program counter equal to 0. The `HLT` branch only clears `running` and
still falls through to `pc += 1`, so the final program counter is 1. -/
theorem claim_C4_counterexample :
    runState ["HLT".toList] 5
      = some ⟨1, List.replicate 8 0, List.replicate 256 0, false, 1, false⟩ := by
  rfl

/-- C4 amended: the program consisting solely of `HLT` terminates in the
success outcome after exactly one executed step, with every register and
memory cell unchanged from its initial zero value, and with the final
program counter equal to 1 (not 0): the counter is still incremented
after the `HLT` step. -/
theorem claim_C4_hlt_program_behavior :
    runProgram ["HLT".toList] 5 = some true
    ∧ runState ["HLT".toList] 5
        = some ⟨1, List.replicate 8 0, List.replicate 256 0, false, 1, false⟩ := by
  refine ⟨by rfl, by rfl⟩

/-- C5 counterexample: the claim says `HLT` or `NOP` followed by extra
tokens gets an arity error in pass 1. Pass 1 accepts `HLT X` (and
`NOP 1 2`) with zero recorded errors. -/
theorem claim_C5_counterexample :
    first_pass ["HLT X".toList] = true
    ∧ (fpRun ["HLT X".toList]).errors = 0
    ∧ first_pass ["NOP 1 2".toList] = true := by
  refine ⟨by rfl, by rfl, by rfl⟩

/-- C5 amended: pass 1 has operand checks only for `JMP` and `MOV`; a
line whose mnemonic is `HLT` or `NOP` records no error whatever extra
tokens follow, is counted as one instruction (the address counter
advances by one), and leaves the label table unchanged. -/
theorem claim_C5_hlt_nop_extra_tokens_accepted (st : FPState)
    (raw p0 : Str) (rest : List Str)
    (h : splitWs (remove_comments raw) = p0 :: rest)
    (hm : p0 = hltS ∨ p0 = nopS) :
    (fpLine st raw).errors = st.errors
    ∧ (fpLine st raw).address = st.address + 1
    ∧ (fpLine st raw).labels = st.labels := by
  rcases hm with hm | hm <;> subst hm <;>
    simp [fpLine, h, endsWithColon, hltS, nopS, jmpS, movS, valid_instructions]

/-- C5 witness: the line `HLT X` adds no error, advances the address. -/
theorem claim_C5_witness :
    (fpLine ⟨0, 0, []⟩ ("HLT X".toList)).errors = 0
    ∧ (fpLine ⟨0, 0, []⟩ ("HLT X".toList)).address = 0 + 1
    ∧ (fpLine ⟨0, 0, []⟩ ("HLT X".toList)).labels = ([] : List (Str × Nat)) :=
  claim_C5_hlt_nop_extra_tokens_accepted ⟨0, 0, []⟩ ("HLT X".toList) hltS
    ["X".toList] (by rfl) (Or.inl rfl)

/-- C6: pass 1 processes every line of the file (the fold over
`lines1 ++ lines2` continues from the state reached after `lines1`, so no
error stops it), each line adds its own error count on top of the errors
already accumulated (independently of them), and `first_pass` reports
success exactly when the accumulated error count is zero. -/
theorem claim_C6_errors_accumulated_success_iff_zero :
    (∀ lines, first_pass lines = true ↔ (fpRun lines).errors = 0)
    ∧ (∀ ls1 ls2, fpRun (ls1 ++ ls2) = ls2.foldl fpLine (fpRun ls1))
    ∧ (∀ st raw, (fpLine st raw).errors
        = st.errors + (fpLine ⟨st.address, 0, st.labels⟩ raw).errors) := by
  refine ⟨?_, ?_, ?_⟩
  · intro lines; simp [first_pass]
  · intro ls1 ls2; simp [fpRun, List.foldl_append]
  · intro st raw
    simp only [fpLine]
    rcases hsp : splitWs (remove_comments raw) with _ | ⟨p0, rest⟩
    · simp
    · simp only []
      split_ifs <;> simp <;> omega

/-- C7: on any input accepted by pass 1, the addresses pass 1 assigns to
the instruction lines coincide with the addresses pass 2 stores in the
materialized instruction records, and the record at position `n` carries
address `n`: addresses are zero-based and contiguous. -/
theorem claim_C7_pass1_pass2_address_agreement (lines : List Str)
    (h : first_pass lines = true) :
    fpAddrs lines = (second_pass lines).map Instr.addr
    ∧ ∀ (n : Nat) (hn : n < (second_pass lines).length),
        ((second_pass lines).get ⟨n, hn⟩).addr = n := by
  have h1 : fpAddrs lines = seqFrom 0 lines := by
    simp [fpAddrs, fpAddrs_aux lines ⟨0, 0, []⟩ []]
  have h2 : (second_pass lines).map Instr.addr = seqFrom 0 lines := by
    simp [second_pass, spAddrs_aux lines 0 []]
  refine ⟨by rw [h1, h2], ?_⟩
  intro n hn
  have hlen : n < (seqFrom 0 lines).length := by
    rw [← h2, List.length_map]; exact hn
  have h3 := seqFrom_getElem? lines 0 n hlen
  rw [← h2, List.getElem?_map, List.getElem?_eq_getElem hn] at h3
  simp only [Option.map_some', Option.some.injEq, Nat.zero_add] at h3
  simpa [List.get_eq_getElem] using h3

/-- C7 witness: the two-line program `NOP; HLT` passes pass 1 and the
address agreement holds for it. -/
theorem claim_C7_witness :
    first_pass ["NOP".toList, "HLT".toList] = true
    ∧ (fpAddrs ["NOP".toList, "HLT".toList]
          = (second_pass ["NOP".toList, "HLT".toList]).map Instr.addr
        ∧ ∀ (n : Nat) (hn : n < (second_pass ["NOP".toList, "HLT".toList]).length),
            ((second_pass ["NOP".toList, "HLT".toList]).get ⟨n, hn⟩).addr = n) :=
  ⟨by rfl, claim_C7_pass1_pass2_address_agreement
    ["NOP".toList, "HLT".toList] (by rfl)⟩

/-- C8 counterexample: the claim says every all-digit token is classified
as an immediate. The all-digit token `65536` is instead rejected with the
out-of-range classification error. -/
theorem claim_C8_counterexample :
    isDigitStr ("65536".toList) = true
    ∧ parse_operand ("65536".toList)
        = Except.error "number exceeds 16-bit range 0-65535" :=
  ⟨by decide, by rfl⟩

/-- C8 amended: for every upper-cased token, `parse_operand` classifies a
two-character token `R` plus a digit 0-7 as that register; `R8` and `R9`
fall through and are classified as labels; an all-digit token whose value
is at most 65535 is an immediate (larger values raise the out-of-range
error instead); and a token that is none of these and does not start with
an alphabetic character is the invalid-operand classification error. -/
theorem claim_C8_operand_classification (t : Str) (hUp : toUpperStr t = t) :
    (∀ d : Char, t = ['R', d] → d.isDigit = true → charDigitVal d ≤ 7 →
        parse_operand t = Except.ok (Operand.reg (charDigitVal d)))
    ∧ ((t = "R8".toList ∨ t = "R9".toList) →
        parse_operand t = Except.ok (Operand.label t))
    ∧ (isDigitStr t = true → digitsVal t ≤ 65535 →
        parse_operand t = Except.ok (Operand.imm (digitsVal t)))
    ∧ (isDigitStr t = false → headIsAlpha t = false →
        parse_operand t = Except.error "invalid operand") := by
  refine ⟨?_, ?_, ?_, ?_⟩
  · intro d ht hd h7
    subst ht
    have hreg : isRegTok ['R', d] = true := by simp [isRegTok, hd, h7]
    simp [parse_operand, hUp, hreg]
  · rintro (ht | ht) <;> subst ht <;> rfl
  · intro hd h65
    have hall : t.all Char.isDigit = true := by
      simp only [isDigitStr, Bool.and_eq_true] at hd
      exact hd.2
    have hreg : isRegTok t = false := isRegTok_eq_false_of_digits t hall
    simp [parse_operand, hUp, hreg, hd, h65]
  · intro hd ha
    have hreg : isRegTok t = false := by
      rcases t with _ | ⟨c0, _ | ⟨c1, _ | ⟨c2, t⟩⟩⟩ <;> simp [isRegTok]
      intro hc0
      subst hc0
      simp [headIsAlpha] at ha
    simp [parse_operand, hUp, hreg, hd, ha]

/-- C8 witness: `R8` is classified as a label. -/
theorem claim_C8_witness :
    parse_operand ("R8".toList) = Except.ok (Operand.label ("R8".toList)) :=
  (claim_C8_operand_classification ("R8".toList) (by decide)).2.1 (Or.inl rfl)

/-- C9: every all-digit token with value up to 65535 is accepted as that
exact immediate (no wraparound), any larger all-digit token raises the
out-of-range classification error, and pass 1 accordingly accepts
`MOV R0 65535` and rejects `MOV R0 65536`. -/
theorem claim_C9_immediate_range_checked (t : Str)
    (hd : isDigitStr t = true) :
    (digitsVal t ≤ 65535 →
        parse_operand t = Except.ok (Operand.imm (digitsVal t)))
    ∧ (65535 < digitsVal t →
        parse_operand t = Except.error "number exceeds 16-bit range 0-65535")
    ∧ first_pass ["MOV R0 65535".toList] = true
    ∧ first_pass ["MOV R0 65536".toList] = false := by
  have hall : t.all Char.isDigit = true := by
    simp only [isDigitStr, Bool.and_eq_true] at hd
    exact hd.2
  have hUp : toUpperStr t = t := toUpperStr_of_digits t hall
  have hreg : isRegTok t = false := isRegTok_eq_false_of_digits t hall
  refine ⟨?_, ?_, by rfl, by rfl⟩
  · intro h65
    simp [parse_operand, hUp, hreg, hd, h65]
  · intro h65
    simp [parse_operand, hUp, hreg, hd, Nat.not_le_of_lt h65]

/-- C9 witness: the token `65535` parses as the immediate 65535. -/
theorem claim_C9_witness :
    parse_operand ("65535".toList) = Except.ok (Operand.imm 65535) := by
  have := (claim_C9_immediate_range_checked ("65535".toList) (by decide)).1
    (by decide)
  simpa using this

/-- C10: throughout every execution started from the initial machine state
(all registers zero), after any number of loop iterations of `execute`
every value in the register file is at most 65535: registers start at 0
and `MOV`, the only register-writing instruction, stores either an
immediate already validated to be in range or a copy of another register
value. -/
theorem claim_C10_registers_within_16_bits (prog : List Instr)
    (labels : List (Str × Nat)) (fuel : Nat) :
    ((execLoop prog labels fuel execInit).regs).all
      (fun r => decide (r ≤ 65535)) = true := by
  rw [List.all_eq_true]
  intro r hr
  rw [decide_eq_true_eq]
  refine execLoop_regs_le prog labels fuel execInit ?_ r hr
  intro x hx
  simp [execInit] at hx
  omega

end Interp
